import Mathlib

/-!
Verification of the WaniKani example-sentence fetcher (src/src/App.js).

The JavaScript code manipulates loosely-typed JSON values obtained from
`res.json()`, so the embedding is built on an inductive type `JsValue` of
JavaScript runtime values (JSON values plus `undefined`, which arises from
reading an absent property).  Property access on `null`/`undefined` throws a
TypeError in JavaScript; fallible code is therefore embedded in
`Except String`.  Numbers are modelled as `Int` (the app never does numeric
arithmetic on payload data, so floating point plays no role).
-/

namespace Wk

/-- JavaScript runtime values flowing through the app: JSON values plus
`undefined`.  Objects are ordered association lists (JS objects preserve key
insertion order); objects produced by `JSON.parse` have pairwise distinct
keys. -/
inductive JsValue : Type where
  | null : JsValue
  | undefined : JsValue
  | bool : Bool → JsValue
  | num : Int → JsValue
  | str : String → JsValue
  | arr : List JsValue → JsValue
  | obj : List (String × JsValue) → JsValue
  deriving Repr

mutual

/-- Structural boolean equality on `JsValue`. -/
def beqVal : JsValue → JsValue → Bool
  | .null, .null => true
  | .undefined, .undefined => true
  | .bool a, .bool b => a == b
  | .num a, .num b => a == b
  | .str a, .str b => a == b
  | .arr xs, .arr ys => beqArr xs ys
  | .obj fs, .obj gs => beqFields fs gs
  | _, _ => false

/-- Structural boolean equality on lists of `JsValue`. -/
def beqArr : List JsValue → List JsValue → Bool
  | [], [] => true
  | x :: xs, y :: ys => beqVal x y && beqArr xs ys
  | _, _ => false

/-- Structural boolean equality on object field lists. -/
def beqFields : List (String × JsValue) → List (String × JsValue) → Bool
  | [], [] => true
  | (k, v) :: fs, (l, w) :: gs => k == l && beqVal v w && beqFields fs gs
  | _, _ => false

end

mutual

theorem beqVal_iff : ∀ (a b : JsValue), beqVal a b = true ↔ a = b
  | a, b => by
    cases a <;> cases b <;> simp [beqVal]
    case arr.arr xs ys => exact beqArr_iff xs ys
    case obj.obj fs gs => exact beqFields_iff fs gs

theorem beqArr_iff : ∀ (xs ys : List JsValue), beqArr xs ys = true ↔ xs = ys
  | [], [] => by simp [beqArr]
  | [], _ :: _ => by simp [beqArr]
  | _ :: _, [] => by simp [beqArr]
  | x :: xs, y :: ys => by
    simp [beqArr, Bool.and_eq_true, beqVal_iff x y, beqArr_iff xs ys]

theorem beqFields_iff : ∀ (fs gs : List (String × JsValue)), beqFields fs gs = true ↔ fs = gs
  | [], [] => by simp [beqFields]
  | [], _ :: _ => by simp [beqFields]
  | _ :: _, [] => by simp [beqFields]
  | (k, v) :: fs, (l, w) :: gs => by
    simp [beqFields, Bool.and_eq_true, beqVal_iff v w, beqFields_iff fs gs]

end

instance : DecidableEq JsValue := fun a b =>
  decidable_of_iff (beqVal a b = true) (beqVal_iff a b)

instance {ε α : Type} [DecidableEq ε] [DecidableEq α] : DecidableEq (Except ε α) := fun a b =>
  match a, b with
  | .ok x, .ok y => decidable_of_iff (x = y) (by simp)
  | .error e, .error f => decidable_of_iff (e = f) (by simp)
  | .ok _, .error _ => isFalse (by simp)
  | .error _, .ok _ => isFalse (by simp)

/-- JavaScript truthiness (`if (v)`, `a || b`, `a && b` tests). -/
def truthy : JsValue → Bool
  | .null => false
  | .undefined => false
  | .bool b => b
  | .num n => n != 0
  | .str s => s != ""
  | .arr _ => true
  | .obj _ => true

/-- JavaScript `a || b`: returns `a` when truthy, else `b`. -/
def jsOr (a b : JsValue) : JsValue := if truthy a then a else b

/-- A value on which property access does not throw (anything except
`null`/`undefined`). -/
def notNullish : JsValue → Bool
  | .null => false
  | .undefined => false
  | _ => true

/-- Total property read `v.k` for non-nullish `v`: named lookup on objects
(runtime objects have pairwise distinct keys, so first match is the match);
every other value (primitives get boxed, arrays have no such named own
property for the names the app uses) yields `undefined`. -/
def fieldOf : JsValue → String → JsValue
  | .obj fs, k => (fs.lookup k).getD .undefined
  | _, _ => .undefined

/-- JavaScript property read `v.k`: throws a TypeError on `null`/`undefined`,
otherwise reads the property. -/
def getField (v : JsValue) (k : String) : Except String JsValue :=
  match v with
  | .null => .error ("TypeError: Cannot read properties of null (reading " ++ k ++ ")")
  | .undefined => .error ("TypeError: Cannot read properties of undefined (reading " ++ k ++ ")")
  | v => .ok (fieldOf v k)

/-- `Array.isArray(v)`. -/
def isArray : JsValue → Bool
  | .arr _ => true
  | _ => false

/-- The element list of an array value (`[]` for non-arrays; the app only
uses this under an `Array.isArray` guard). -/
def asArray : JsValue → List JsValue
  | .arr xs => xs
  | _ => []

/-- JavaScript `typeof v === 'object'`: true for objects, arrays and — a
JavaScript quirk — `null`. -/
def typeofObject : JsValue → Bool
  | .null => true
  | .arr _ => true
  | .obj _ => true
  | _ => false

/-- JavaScript `v[0]` on a non-nullish value: first element of an array,
first character of a string, `"0"` property of an object, `undefined`
otherwise. -/
def jsIndex0 : JsValue → JsValue
  | .arr (x :: _) => x
  | .obj fs => (fs.lookup "0").getD .undefined
  | .str s =>
      match s.toList with
      | [] => .undefined
      | c :: _ => .str (String.singleton c)
  | _ => .undefined

/-- Index/element pairs of an array, with stringified indices starting at
`i` (how `Object.keys` exposes array elements). -/
def idxEntries (i : Nat) : List JsValue → List (String × JsValue)
  | [] => []
  | x :: xs => (toString i, x) :: idxEntries (i + 1) xs

/-- Index/character pairs of a string, with stringified indices starting at
`i` (how `Object.keys` exposes string characters, each as a one-character
string). -/
def idxCharEntries (i : Nat) : List Char → List (String × JsValue)
  | [] => []
  | c :: cs => (toString i, .str (String.singleton c)) :: idxCharEntries (i + 1) cs

/-- `Object.keys(v)` paired with the corresponding `v[key]` reads, as the
`for (const key of Object.keys(data))` loop observes them: own enumerable
entries of an object, index/element pairs of an array, index/character pairs
of a string, nothing for other primitives. -/
def ownEntries : JsValue → List (String × JsValue)
  | .obj fs => fs
  | .arr xs => idxEntries 0 xs
  | .str s => idxCharEntries 0 s.toList
  | _ => []

mutual

/-- JavaScript string coercion `String(v)` / template interpolation. -/
def jsToString : JsValue → String
  | .null => "null"
  | .undefined => "undefined"
  | .bool b => if b then "true" else "false"
  | .num n => toString n
  | .str s => s
  | .arr xs => jsJoinComma xs
  | .obj _ => "[object Object]"

/-- `Array.prototype.toString` = `join(",")`: elements are string-coerced,
with `null`/`undefined` becoming the empty string. -/
def jsJoinComma : List JsValue → String
  | [] => ""
  | [x] => jsElemString x
  | x :: y :: xs => jsElemString x ++ "," ++ jsJoinComma (y :: xs)

/-- One element as rendered by `Array.prototype.join`: `null` and
`undefined` render as the empty string, everything else as `String(v)`. -/
def jsElemString : JsValue → String
  | .null => ""
  | .undefined => ""
  | .bool b => if b then "true" else "false"
  | .num n => toString n
  | .str s => s
  | .arr xs => jsJoinComma xs
  | .obj _ => "[object Object]"

end

/-- One extracted example sentence, as built by `extractSentencesFromSubject`:
`id` is a template string, `japanese`/`english` keep whatever value the
`||`-chain produced (a string in the common case, but any truthy JSON value
flows through unchanged). -/
structure SentenceRecord where
  id : String
  japanese : JsValue
  english : JsValue
  deriving Repr, DecidableEq

/-- The `||`-chain `s.k1 || s.k2 || ... || ''` over property reads of `s`:
short-circuits at the first truthy property, defaults to the empty string.
Throws (propagates) when `s` itself is nullish. -/
def jsGetOr (s : JsValue) : List String → Except String JsValue
  | [] => .ok (.str "")
  | k :: ks => do
    let v ← getField s k
    if truthy v then .ok v else jsGetOr s ks

/-- Rule-1 mapping of one `context_sentences` entry
(`App.js` line 29): `{ id: sid-ctx-i, japanese: s.ja || s.japanese ||
s.jp || s.ja_text || s.text || '', english: s.en || s.english ||
s.en_text || '' }`. -/
def ctxRecord (sid : JsValue) (i : Nat) (s : JsValue) : Except String SentenceRecord := do
  let ja ← jsGetOr s ["ja", "japanese", "jp", "ja_text", "text"]
  let en ← jsGetOr s ["en", "english", "en_text"]
  .ok ⟨jsToString sid ++ "-ctx-" ++ toString i, ja, en⟩

/-- Rule-2 mapping of one element of a sentence-like array under key `key`
(`App.js` line 36). -/
def rule2Record (sid : JsValue) (key : String) (i : Nat) (s : JsValue) :
    Except String SentenceRecord := do
  let ja ← jsGetOr s ["ja", "japanese", "text"]
  let en ← jsGetOr s ["en", "english"]
  .ok ⟨jsToString sid ++ "-" ++ key ++ "-" ++ toString i, ja, en⟩

/-- `Array.prototype.map` with the element index, in the `Except` monad
(each callback may throw). -/
def mapIdxExcept (f : Nat → JsValue → Except String SentenceRecord) :
    Nat → List JsValue → Except String (List SentenceRecord)
  | _, [] => .ok []
  | i, x :: xs => do
    let r ← f i x
    let rs ← mapIdxExcept f (i + 1) xs
    .ok (r :: rs)

/-- The `looksLikeSentence` element test (`App.js` line 34):
`v && (v.ja || v.japanese || v.en || v.english || v.text)` is truthy.
Property reads are total here because they only run when `v` is truthy
(hence non-nullish). -/
def sentenceLike (v : JsValue) : Bool :=
  truthy v && (truthy (fieldOf v "ja") || truthy (fieldOf v "japanese") ||
    truthy (fieldOf v "en") || truthy (fieldOf v "english") || truthy (fieldOf v "text"))

/-- The rule-2 scan (`App.js` lines 31–39): walk the own entries of `data`
in order and return the first `(key, elements)` whose value is a non-empty
array, whose first element has `typeof === 'object'`, and some element of
which looks like a sentence. -/
def scanKeys : List (String × JsValue) → Option (String × List JsValue)
  | [] => none
  | (k, val) :: rest =>
    if isArray val ∧ asArray val ≠ [] ∧ typeofObject ((asArray val).headD .undefined) = true ∧
        (asArray val).any sentenceLike = true then
      some (k, asArray val)
    else scanKeys rest

/-- The fallback English text (`App.js` line 41):
`(data.meanings && data.meanings[0] && data.meanings[0].meaning) || ''`.
Total: `data` is non-nullish and each later read is guarded by the
truthiness of the previous value. -/
def fallbackEnglish (data : JsValue) : JsValue :=
  let m := fieldOf data "meanings"
  let m0 := jsIndex0 m
  let mm := fieldOf m0 "meaning"
  if truthy m && truthy m0 && truthy mm then mm else .str ""

/-- `extractSentencesFromSubject` (`App.js` lines 26–44).  Embedded in
`Except String` because property access on nullish values throws in
JavaScript.  After `subject.data` has been read successfully, `subject` is
known non-nullish, so the later `subject.id` reads (inside the template
strings) are total and are hoisted to `fieldOf subject "id"` here. -/
def extractSentencesFromSubject (subject : JsValue) : Except String (List SentenceRecord) := do
  let d ← getField subject "data"
  let data := jsOr d (.obj [])
  let sid := fieldOf subject "id"
  let ctx := fieldOf data "context_sentences"
  if isArray ctx ∧ asArray ctx ≠ [] then
    mapIdxExcept (ctxRecord sid) 0 (asArray ctx)
  else
    match scanKeys (ownEntries data) with
    | some (k, elems) => mapIdxExcept (rule2Record sid k) 0 elems
    | none =>
      let ch := fieldOf data "characters"
      if truthy ch then
        .ok [⟨jsToString sid ++ "-fallback-0", ch, fallbackEnglish data⟩]
      else
        .ok []

/-- One HTTP response as `fetchAllPages` observes it: the `res.ok` flag,
status code, status text, and the body already parsed by `res.json()`. -/
structure PageResponse where
  ok : Bool
  status : Nat
  statusText : String
  body : JsValue
  deriving Repr, DecidableEq

/-- `json.data` handling (`App.js` lines 17–19): read `json.data` (throws on
a nullish body) and, when it is a truthy array, yield its elements, else an
empty page. -/
def pageData (body : JsValue) : Except String (List JsValue) := do
  let d ← getField body "data"
  if truthy d && isArray d then .ok (asArray d) else .ok []

/-- The cursor step (`App.js` line 20):
`json.pages && json.pages.next_url ? json.pages.next_url : null`, with the
resulting value string-coerced when used as the next request URL. -/
def nextCursor (body : JsValue) : Except String (Option String) := do
  let pages ← getField body "pages"
  if truthy pages then
    if truthy (fieldOf pages "next_url") then .ok (some (jsToString (fieldOf pages "next_url")))
    else .ok none
  else
    .ok none

/-- Total form of `pageData` (equal to it on non-nullish bodies). -/
def dataArr (body : JsValue) : List JsValue :=
  if truthy (fieldOf body "data") && isArray (fieldOf body "data") then
    asArray (fieldOf body "data")
  else []

/-- Total form of `nextCursor` (equal to it on non-nullish bodies). -/
def nextUrl? (body : JsValue) : Option String :=
  if truthy (fieldOf body "pages") then
    if truthy (fieldOf (fieldOf body "pages") "next_url") then
      some (jsToString (fieldOf (fieldOf body "pages") "next_url"))
    else none
  else none

/-- The `while (next)` loop of `fetchAllPages` (`App.js` lines 13–22) over an
abstract network `world : String → Option PageResponse` (`none` models a
transport failure, i.e. a rejected `fetch`).  The loop in the source has no
bound; `fuel` makes the embedding total, and every theorem supplies enough
fuel for the premised page chain. -/
def fetchPagesLoop (world : String → Option PageResponse) :
    Nat → String → List JsValue → Except String (List JsValue)
  | 0, _, _ => .error "model: pagination did not terminate within fuel"
  | fuel + 1, url, all =>
    match world url with
    | none => .error "TypeError: Failed to fetch"
    | some res =>
      if !res.ok then
        .error ("HTTP " ++ toString res.status ++ ": " ++ res.statusText)
      else do
        let ds ← pageData res.body
        let all' := all ++ ds
        let next ← nextCursor res.body
        match next with
        | some nurl => fetchPagesLoop world fuel nurl all'
        | none => .ok all'

/-- `fetchAllPages(url, headers, onProgress)` (`App.js` lines 10–24).  The
`headers` argument and the `onProgress` callback have no effect on the
returned value and are omitted; the response to each URL is the abstract
`world`. -/
def fetchAllPages (world : String → Option PageResponse) (fuel : Nat) (url : String) :
    Except String (List JsValue) :=
  fetchPagesLoop world fuel url []

/-- One group pushed into `collected` (`App.js` line 72):
`{ subject_id: s.id, slug: s.data && s.data.slug, characters: s.data &&
s.data.characters, sentences }`. -/
structure SubjectGroup where
  subject_id : JsValue
  slug : JsValue
  characters : JsValue
  sentences : List SentenceRecord
  deriving Repr, DecidableEq

/-- `s.data && s.data.k`: the value of `s.data` itself when falsy, else the
`k` property of it. -/
def dataAnd (s : JsValue) (k : String) : Except String JsValue := do
  let d ← getField s "data"
  if truthy d then .ok (fieldOf d k) else .ok d

/-- The collection loop of `handleFetch` (`App.js` lines 68–74): extract
sentences for each subject in order and keep a group exactly for the
subjects that yielded at least one sentence. -/
def collectGroups : List JsValue → Except String (List SubjectGroup)
  | [] => .ok []
  | s :: rest => do
    let sentences ← extractSentencesFromSubject s
    if sentences ≠ [] then
      let sid ← getField s "id"
      let slug ← dataAnd s "slug"
      let chars ← dataAnd s "characters"
      let tail ← collectGroups rest
      .ok (⟨sid, slug, chars, sentences⟩ :: tail)
    else
      collectGroups rest

/-- Hexadecimal digit (uppercase), for percent-encoding. -/
def hexDigitChar (n : Nat) : Char :=
  if n < 10 then Char.ofNat (48 + n) else Char.ofNat (55 + n)

/-- Two-digit uppercase hexadecimal rendering of a byte value. -/
def hexByteStr (n : Nat) : String :=
  String.singleton (hexDigitChar (n / 16 % 16)) ++ String.singleton (hexDigitChar (n % 16))

/-- Characters `encodeURIComponent` leaves unescaped:
`A–Z a–z 0–9 - _ . ! ~ * ' ( )`. -/
def uriUnreserved (c : Char) : Bool :=
  c.isAlphanum || c = '-' || c = '_' || c = '.' || c = '!' || c = '~' || c = '*' ||
    c = Char.ofNat 39 || c = '(' || c = ')'

/-- `encodeURIComponent`: unreserved characters pass through, every other
character is replaced by the percent-encoding of its UTF-8 bytes. -/
def encodeURIComponent (s : String) : String :=
  String.join (s.toList.map fun c =>
    if uriUnreserved c then String.singleton c
    else String.join (((String.singleton c).toUTF8.toList).map fun b => "%" ++ hexByteStr b.toNat))

/-- The subjects query URL (`App.js` line 64). -/
def baseUrl (level : String) : String :=
  "https://api.wanikani.com/v2/subjects?types=vocabulary&levels=" ++
    encodeURIComponent level ++ "&per_page=500"

/-- The observable outcome of one `handleFetch` run: the `groups` and
`error` state after the run (`groups` is reset to empty at the start, so a
failed run leaves it empty). -/
structure FetchOutcome where
  groups : List (String × List SubjectGroup)
  error : Option String
  deriving Repr, DecidableEq

/-- `handleFetch` (`App.js` lines 55–82) as a function from the network, the
token and the level input to the resulting `(groups, error)` state:
`groups` is cleared, then either an error message is recorded (missing
token, HTTP failure, extraction TypeError) with `groups` left empty, or the
single-entry level map is stored with no error. -/
def handleFetch (world : String → Option PageResponse) (fuel : Nat)
    (apiToken : String) (level : String) : FetchOutcome :=
  if apiToken = "" then
    ⟨[], some "Please provide your WaniKani API token."⟩
  else
    match fetchAllPages world fuel (baseUrl level) with
    | .error e => ⟨[], some e⟩
    | .ok subjects =>
      match collectGroups subjects with
      | .error e => ⟨[], some e⟩
      | .ok collected => ⟨[("Level " ++ level, collected)], none⟩

/-- The ascending integer range `[a..b]` (empty when `b < a`, matching the
literal empty-on-reversed behaviour the spec fixes as the contract). -/
def rangeAsc (a b : Nat) : List Nat := List.range' a (b + 1 - a)

/-- Insertion into an ascending duplicate-free list, keeping it ascending
and duplicate-free. -/
def insertAsc (n : Nat) : List Nat → List Nat
  | [] => [n]
  | m :: ms =>
    if n < m then n :: m :: ms
    else if n = m then m :: ms
    else m :: insertAsc n ms

/-- Splitting a character list on a separator character (the char-level
analogue of `String.splitOn` with a one-character separator). -/
def splitOnChar (sep : Char) : List Char → List (List Char)
  | [] => [[]]
  | c :: cs =>
    if c = sep then [] :: splitOnChar sep cs
    else
      match splitOnChar sep cs with
      | [] => [[c]]
      | t :: ts => (c :: t) :: ts

/-- Whitespace as trimmed from level tokens. -/
def isSpaceChar (c : Char) : Bool := c = ' ' || c = Char.ofNat 9 || c = Char.ofNat 10 || c = Char.ofNat 13

/-- Trimming leading and trailing whitespace from a character list. -/
def trimChars (cs : List Char) : List Char :=
  ((cs.dropWhile isSpaceChar).reverse.dropWhile isSpaceChar).reverse

/-- Parsing a non-empty all-digit character list as a natural number
(anything else fails, and the caller discards the token). -/
def digitsToNat? (cs : List Char) : Option Nat :=
  if cs ≠ [] ∧ cs.all Char.isDigit then
    some (cs.foldl (fun a c => a * 10 + (c.toNat - 48)) 0)
  else none

/-- Modelled from the spec: expansion of one comma-separated token of the
level specification.  The level-range parser (the `parseLevels()` utility
the README mentions) is not among the sources under `src/`; this follows
§4.1 of the spec: a token containing a hyphen is a range whose two endpoints
must both parse as integers (otherwise the token is silently discarded, and
a reversed range expands to nothing); a token without a hyphen is a single
integer, discarded when it does not parse. -/
def expandToken (t : List Char) : List Nat :=
  if t.contains '-' then
    match splitOnChar '-' t with
    | [a, b] =>
      match digitsToNat? (trimChars a), digitsToNat? (trimChars b) with
      | some x, some y => rangeAsc x y
      | _, _ => []
    | _ => []
  else
    match digitsToNat? t with
    | some n => [n]
    | none => []

/-- Modelled from the spec: the level-range parser of §4.1 (`parseLevels()`
in the README, not present under `src/`): split the input on commas, trim
each token, expand tokens (ranges or single integers, silently discarding
malformed ones), and return the resulting set of levels deduplicated in
ascending order. -/
def parseLevels (input : String) : List Nat :=
  ((splitOnChar ',' input.toList).map trimChars).foldr
    (fun t acc => (expandToken t).foldr insertAsc acc) []

theorem mem_insertAsc (x n : Nat) : ∀ l, x ∈ insertAsc n l ↔ x = n ∨ x ∈ l := by
  intro l
  induction l with
  | nil => simp [insertAsc]
  | cons m ms ih =>
    by_cases h1 : n < m
    · simp [insertAsc, h1]
    · by_cases h2 : n = m
      · subst h2
        simp [insertAsc, h1]
      · simp [insertAsc, h1, h2, ih]
        tauto

theorem sorted_insertAsc (n : Nat) :
    ∀ l : List Nat, l.Sorted (· < ·) → (insertAsc n l).Sorted (· < ·) := by
  intro l
  induction l with
  | nil => simp [insertAsc]
  | cons m ms ih =>
    intro h
    rw [List.sorted_cons] at h
    obtain ⟨hm, hms⟩ := h
    by_cases h1 : n < m
    · rw [insertAsc, if_pos h1, List.sorted_cons]
      refine ⟨?_, ?_⟩
      · intro b hb
        rcases List.mem_cons.mp hb with rfl | hb
        · exact h1
        · exact h1.trans (hm b hb)
      · rw [List.sorted_cons]; exact ⟨hm, hms⟩
    · by_cases h2 : n = m
      · rw [insertAsc, if_neg h1, if_pos h2, List.sorted_cons]
        exact ⟨hm, hms⟩
      · rw [insertAsc, if_neg h1, if_neg h2, List.sorted_cons]
        refine ⟨?_, ih hms⟩
        intro b hb
        rcases (mem_insertAsc b n ms).mp hb with rfl | hb
        · omega
        · exact hm b hb

theorem sorted_foldr_insertAsc (xs : List Nat) :
    ∀ acc : List Nat, acc.Sorted (· < ·) → (xs.foldr insertAsc acc).Sorted (· < ·) := by
  induction xs with
  | nil => intro acc h; exact h
  | cons x xs ih =>
    intro acc h
    exact sorted_insertAsc x _ (ih acc h)

theorem sorted_tokensFold (tokens : List (List Char)) :
    (tokens.foldr (fun t acc => (expandToken t).foldr insertAsc acc) []).Sorted (· < ·) := by
  induction tokens with
  | nil => simp
  | cons t ts ih =>
    exact sorted_foldr_insertAsc (expandToken t) _ ih

theorem parseLevels_sorted (s : String) : (parseLevels s).Sorted (· < ·) :=
  sorted_tokensFold _

theorem parseLevels_nodup (s : String) : (parseLevels s).Nodup :=
  (parseLevels_sorted s).nodup

/-- The `groups` state value as JavaScript sees one sentence record (the
object literal built at `App.js` lines 29/36/41). -/
def sentenceToJs (r : SentenceRecord) : JsValue :=
  .obj [("id", .str r.id), ("japanese", r.japanese), ("english", r.english)]

/-- The `groups` state value as JavaScript sees one subject group (the
object literal pushed at `App.js` line 72). -/
def groupToJs (g : SubjectGroup) : JsValue :=
  .obj [("subject_id", g.subject_id), ("slug", g.slug), ("characters", g.characters),
    ("sentences", .arr (g.sentences.map sentenceToJs))]

/-- The `groups` state object (`{ [levelKey]: collected }`, `App.js`
line 76) as a JavaScript value. -/
def groupsToJs (m : List (String × List SubjectGroup)) : JsValue :=
  .obj (m.map fun p => (p.1, .arr (p.2.map groupToJs)))

/-- The value of the last occurrence of key `k` in `fs`, defaulting to
`dflt` when `k` does not occur. -/
def lastValFrom (k : String) (dflt : JsValue) : List (String × JsValue) → JsValue
  | [] => dflt
  | (k', v') :: fs => lastValFrom k (if k' == k then v' else dflt) fs

/-- What `JSON.parse` makes of a serialized object field list with possible
duplicate keys: each key keeps its first position but its last value
(`seen` carries the keys already emitted). -/
def collapseDupAux : List String → List (String × JsValue) → List (String × JsValue)
  | _, [] => []
  | seen, (k, v) :: fs =>
    if seen.contains k then collapseDupAux seen fs
    else (k, lastValFrom k v fs) :: collapseDupAux (k :: seen) fs

/-- What `JSON.parse` makes of a serialized object field list with possible
duplicate keys: each key keeps its first position but its last value. -/
def collapseDup (fs : List (String × JsValue)) : List (String × JsValue) :=
  collapseDupAux [] fs

mutual

/-- `JSON.parse(JSON.stringify(v))` per ECMA-262 for the value shapes the
app can hold (no functions, no non-finite numbers): primitives and strings
round-trip exactly; array elements round-trip with `undefined` serialized
as `null`; object entries whose value is `undefined` are omitted by
`JSON.stringify`, and duplicate keys collapse on parse.  (Only called on
non-`undefined` top-level values; see `jsonRoundTrip`.) -/
def jsonRTval : JsValue → JsValue
  | .null => .null
  | .undefined => .null
  | .bool b => .bool b
  | .num n => .num n
  | .str s => .str s
  | .arr xs => .arr (jsonRTelems xs)
  | .obj fs => .obj (collapseDup (jsonRTfields fs))

/-- One array element under `JSON.stringify`/`JSON.parse`: `undefined`
serializes as `null`, other values round-trip as `jsonRTval`. -/
def jsonRTelem : JsValue → JsValue
  | .null => .null
  | .undefined => .null
  | .bool b => .bool b
  | .num n => .num n
  | .str s => .str s
  | .arr xs => .arr (jsonRTelems xs)
  | .obj fs => .obj (collapseDup (jsonRTfields fs))

/-- Array elements under `JSON.stringify`: `undefined` becomes `null`. -/
def jsonRTelems : List JsValue → List JsValue
  | [] => []
  | x :: xs => jsonRTelem x :: jsonRTelems xs

/-- Object entries under `JSON.stringify`: `undefined`-valued entries are
omitted. -/
def jsonRTfields : List (String × JsValue) → List (String × JsValue)
  | [] => []
  | (_, .undefined) :: fs => jsonRTfields fs
  | (k, .null) :: fs => (k, .null) :: jsonRTfields fs
  | (k, .bool b) :: fs => (k, .bool b) :: jsonRTfields fs
  | (k, .num n) :: fs => (k, .num n) :: jsonRTfields fs
  | (k, .str s) :: fs => (k, .str s) :: jsonRTfields fs
  | (k, .arr xs) :: fs => (k, .arr (jsonRTelems xs)) :: jsonRTfields fs
  | (k, .obj gs) :: fs => (k, .obj (collapseDup (jsonRTfields gs))) :: jsonRTfields fs

end

/-- `JSON.parse(JSON.stringify(v))`: fails (`JSON.stringify` yields the
string `undefined`, which `JSON.parse` rejects) exactly when the top-level
value is `undefined`. -/
def jsonRoundTrip (v : JsValue) : Option JsValue :=
  match v with
  | .undefined => none
  | v => some (jsonRTval v)

/-- No duplicate keys in an object field list. -/
def noDupKeysB : List String → Bool
  | [] => true
  | k :: ks => !(ks.contains k) && noDupKeysB ks

mutual

/-- A value is JSON-clean when it contains no `undefined` anywhere and all
its objects have pairwise distinct keys — the shape of every value built by
`JSON.parse`, and of the `groups` object whenever every retained subject
defines the fields the group literal reads. -/
def jsonCleanVal : JsValue → Bool
  | .null => true
  | .undefined => false
  | .bool _ => true
  | .num _ => true
  | .str _ => true
  | .arr xs => jsonCleanElems xs
  | .obj fs => noDupKeysB (fs.map Prod.fst) && jsonCleanFields fs

/-- All elements JSON-clean. -/
def jsonCleanElems : List JsValue → Bool
  | [] => true
  | x :: xs => jsonCleanVal x && jsonCleanElems xs

/-- All field values JSON-clean. -/
def jsonCleanFields : List (String × JsValue) → Bool
  | [] => true
  | (_, v) :: fs => jsonCleanVal v && jsonCleanFields fs

end

theorem lastValFrom_not_mem (k : String) : ∀ (fs : List (String × JsValue)) (dflt : JsValue),
    (fs.map Prod.fst).contains k = false → lastValFrom k dflt fs = dflt
  | [], _, _ => rfl
  | (k', v') :: fs, dflt, h => by
    simp only [List.map_cons, List.contains_cons, Bool.or_eq_false_iff] at h
    rw [lastValFrom, if_neg (fun e : (k' == k) = true => by
      rw [beq_iff_eq] at e
      rw [e, beq_self_eq_true] at h
      exact absurd h.1 (by simp))]
    exact lastValFrom_not_mem k fs dflt h.2

theorem collapseDupAux_nodup : ∀ (fs : List (String × JsValue)) (seen : List String),
    noDupKeysB (fs.map Prod.fst) = true →
    (∀ p ∈ fs, seen.contains p.1 = false) →
    collapseDupAux seen fs = fs
  | [], _, _, _ => rfl
  | (k, v) :: fs, seen, hnd, hseen => by
    rw [List.map_cons, noDupKeysB, Bool.and_eq_true, Bool.not_eq_true'] at hnd
    rw [collapseDupAux,
      if_neg (by rw [hseen (k, v) (List.mem_cons_self _ _)]; exact Bool.false_ne_true),
      lastValFrom_not_mem k fs v hnd.1,
      collapseDupAux_nodup fs (k :: seen) hnd.2 ?_]
    intro p hp
    rw [List.contains_cons, Bool.or_eq_false_iff]
    refine ⟨?_, hseen p (List.mem_cons_of_mem _ hp)⟩
    cases he : p.1 == k with
    | false => rfl
    | true =>
      exfalso
      rw [beq_iff_eq] at he
      have hmem : k ∈ fs.map Prod.fst := he ▸ List.mem_map_of_mem Prod.fst hp
      rw [List.contains_eq_any_beq] at hnd
      have : (fs.map Prod.fst).any (k == ·) = true :=
        List.any_eq_true.mpr ⟨k, hmem, beq_self_eq_true k⟩
      rw [this] at hnd
      exact absurd hnd.1 (by simp)

theorem collapseDup_of_nodup (fs : List (String × JsValue))
    (h : noDupKeysB (fs.map Prod.fst) = true) : collapseDup fs = fs :=
  collapseDupAux_nodup fs [] h (fun _ _ => rfl)

mutual

theorem jsonRTval_clean : ∀ (v : JsValue), jsonCleanVal v = true → jsonRTval v = v
  | .null, _ => rfl
  | .undefined, h => by simp [jsonCleanVal] at h
  | .bool _, _ => rfl
  | .num _, _ => rfl
  | .str _, _ => rfl
  | .arr xs, h => by
    rw [jsonRTval, jsonRTelems_clean xs (by simpa [jsonCleanVal] using h)]
  | .obj fs, h => by
    rw [jsonCleanVal, Bool.and_eq_true] at h
    rw [jsonRTval, jsonRTfields_clean fs h.2, collapseDup_of_nodup fs h.1]

theorem jsonRTelem_clean : ∀ (v : JsValue), jsonCleanVal v = true → jsonRTelem v = v
  | .null, _ => rfl
  | .undefined, h => by simp [jsonCleanVal] at h
  | .bool _, _ => rfl
  | .num _, _ => rfl
  | .str _, _ => rfl
  | .arr xs, h => by
    rw [jsonRTelem, jsonRTelems_clean xs (by simpa [jsonCleanVal] using h)]
  | .obj fs, h => by
    rw [jsonCleanVal, Bool.and_eq_true] at h
    rw [jsonRTelem, jsonRTfields_clean fs h.2, collapseDup_of_nodup fs h.1]

theorem jsonRTelems_clean : ∀ (xs : List JsValue), jsonCleanElems xs = true → jsonRTelems xs = xs
  | [], _ => rfl
  | x :: xs, h => by
    rw [jsonCleanElems, Bool.and_eq_true] at h
    rw [jsonRTelems, jsonRTelem_clean x h.1, jsonRTelems_clean xs h.2]

theorem jsonRTfields_clean : ∀ (fs : List (String × JsValue)), jsonCleanFields fs = true →
    jsonRTfields fs = fs
  | [], _ => rfl
  | (k, v) :: fs, h => by
    rw [jsonCleanFields, Bool.and_eq_true] at h
    have hfs := jsonRTfields_clean fs h.2
    cases v with
    | undefined => simp [jsonCleanVal] at h
    | null => rw [jsonRTfields, hfs]
    | bool b => rw [jsonRTfields, hfs]
    | num n => rw [jsonRTfields, hfs]
    | str s => rw [jsonRTfields, hfs]
    | arr ys =>
      rw [jsonRTfields, hfs, jsonRTelems_clean ys (by simpa [jsonCleanVal] using h.1)]
    | obj gs =>
      have h1 := h.1
      rw [jsonCleanVal, Bool.and_eq_true] at h1
      rw [jsonRTfields, hfs, jsonRTfields_clean gs h1.2, collapseDup_of_nodup gs h1.1]

end

/-- JSON string escaping for one character, per `JSON.stringify`
(`QuoteJSONString`): quote, backslash and control characters are escaped,
everything else passes through. -/
def escChar (c : Char) : String :=
  if c = Char.ofNat 34 then "\\\""
  else if c = Char.ofNat 92 then "\\\\"
  else if c = Char.ofNat 8 then "\\b"
  else if c = Char.ofNat 9 then "\\t"
  else if c = Char.ofNat 10 then "\\n"
  else if c = Char.ofNat 12 then "\\f"
  else if c = Char.ofNat 13 then "\\r"
  else if c.toNat < 32 then "\\u00" ++ hexByteStr c.toNat
  else String.singleton c

/-- A JSON string literal for `s` (`JSON.stringify` quoting). -/
def jsonQuote (s : String) : String :=
  "\"" ++ String.join (s.toList.map escChar) ++ "\""

mutual

/-- `JSON.stringify(v, null, 2)` at the indentation level whose accumulated
gap is `ind`: `none` when the value is not serializable (`undefined`), the
pretty-printed document otherwise. -/
def jsonStrVal (ind : String) : JsValue → Option String
  | .null => some "null"
  | .undefined => none
  | .bool b => some (if b then "true" else "false")
  | .num n => some (toString n)
  | .str s => some (jsonQuote s)
  | .arr xs =>
    some (match xs with
      | [] => "[]"
      | _ => "[\n" ++ jsonStrItems (ind ++ "  ") xs ++ "\n" ++ ind ++ "]")
  | .obj fs =>
    some (match jsonStrFields (ind ++ "  ") fs with
      | [] => "\x7b\x7d"
      | parts => "\x7b\n" ++ String.intercalate ",\n" parts ++ "\n" ++ ind ++ "\x7d")

/-- The array items of a pretty-printed JSON array, each on its own
indented line (`undefined` items print as `null`). -/
def jsonStrItems (ind : String) : List JsValue → String
  | [] => ""
  | [x] => ind ++ ((jsonStrVal ind x).getD "null")
  | x :: y :: xs =>
    ind ++ ((jsonStrVal ind x).getD "null") ++ ",\n" ++ jsonStrItems ind (y :: xs)

/-- The entry lines of a pretty-printed JSON object (entries whose value is
not serializable are skipped). -/
def jsonStrFields (ind : String) : List (String × JsValue) → List String
  | [] => []
  | (k, v) :: fs =>
    match jsonStrVal ind v with
    | none => jsonStrFields ind fs
    | some sv => (ind ++ jsonQuote k ++ ": " ++ sv) :: jsonStrFields ind fs

end

/-- `JSON.stringify(v, null, 2)` for a top-level value, as the string that
ends up in the saved file: a top-level `undefined` result is coerced to the
string `"undefined"` by the `Blob` constructor. -/
def jsonStringifyPretty (v : JsValue) : String :=
  (jsonStrVal "" v).getD "undefined"

/-- The lines pushed for the sentences of one group in `exportText`
(`App.js` lines 104–112): the raw `japanese`/`english` values in the
single-language modes, the tab-joined template string otherwise. -/
def sentenceLines (option : String) (ss : List SentenceRecord) : List JsValue :=
  ss.map fun s =>
    if option = "japanese" then s.japanese
    else if option = "english" then s.english
    else .str (jsToString s.japanese ++ " \t " ++ jsToString s.english)

/-- The lines pushed for one subject group in `exportText` (`App.js`
lines 103–112): the section header `\n## {characters || slug ||
subject_id}` followed by one line per sentence. -/
def groupLines (option : String) (it : SubjectGroup) : List JsValue :=
  .str ("\n## " ++ jsToString (jsOr it.characters (jsOr it.slug it.subject_id))) ::
    sentenceLines option it.sentences

/-- The full `lines` array of `exportText` (`App.js` lines 99–114):
`# {level}` per level entry, then each group's lines. -/
def exportLines (groups : List (String × List SubjectGroup)) (option : String) : List JsValue :=
  groups.foldr
    (fun p acc => .str ("# " ++ p.1) :: ((p.2.map (groupLines option)).flatten ++ acc)) []

/-- `exportText(option)` (`App.js` lines 98–116) as the `(filename,
payload)` pair handed to `saveFile`: the payload is `lines.join('\n')`,
whose element coercion (`Array.prototype.join`) renders nullish entries as
empty strings and coerces the rest with `String(...)`. -/
def exportText (groups : List (String × List SubjectGroup)) (level : String)
    (option : String) : String × String :=
  ("wanikani-sentences-level-" ++ level ++ "-" ++ option ++ ".txt",
    String.intercalate "\n" ((exportLines groups option).map jsElemString))

/-- `handleSaveJSON` (`App.js` lines 94–96) as the `(filename, payload)`
pair handed to `saveFile`. -/
def handleSaveJSON (groups : List (String × List SubjectGroup)) (level : String) :
    String × String :=
  ("wanikani-sentences-level-" ++ level ++ ".json",
    jsonStringifyPretty (groupsToJs groups))

/-- The four export modes of §4.4. -/
inductive ExportMode : Type where
  | japaneseOnly : ExportMode
  | englishOnly : ExportMode
  | bilingual : ExportMode
  | jsonFull : ExportMode
  deriving Repr, DecidableEq

/-- The export serializer: one `(filename, payload)` per invocation, built
from the current `groups` and `level` state only (`exportText` with the
mode's option string for the text modes, `handleSaveJSON` for `json-full`). -/
def serializeExport (groups : List (String × List SubjectGroup)) (level : String) :
    ExportMode → String × String
  | .japaneseOnly => exportText groups level "japanese"
  | .englishOnly => exportText groups level "english"
  | .bilingual => exportText groups level "both"
  | .jsonFull => handleSaveJSON groups level

theorem except_bind_ok {ε α β : Type} (x : α) (f : α → Except ε β) :
    (Except.ok x >>= f) = f x := rfl

theorem except_bind_err {ε α β : Type} (e : ε) (f : α → Except ε β) :
    (Except.error e >>= f : Except ε β) = Except.error e := rfl

theorem getField_notNullish (v : JsValue) (k : String) (h : notNullish v = true) :
    getField v k = .ok (fieldOf v k) := by
  cases v <;> simp [notNullish] at h ⊢ <;> rfl

/-- `subject.data || {}` as a total function of the subject (`App.js`
line 27). -/
def subjData (s : JsValue) : JsValue := jsOr (fieldOf s "data") (.obj [])

/-- Total form of the `||`-chain `s.k1 || ... || ''` (equal to `jsGetOr` on
non-nullish `s`). -/
def jsGetOrT (s : JsValue) : List String → JsValue
  | [] => .str ""
  | k :: ks =>
    let v := fieldOf s k
    if truthy v then v else jsGetOrT s ks

/-- Total form of the rule-1 record for a non-nullish entry. -/
def ctxRecordT (sid : JsValue) (i : Nat) (c : JsValue) : SentenceRecord :=
  ⟨jsToString sid ++ "-ctx-" ++ toString i,
    jsGetOrT c ["ja", "japanese", "jp", "ja_text", "text"],
    jsGetOrT c ["en", "english", "en_text"]⟩

/-- Total form of the rule-2 record for a non-nullish element. -/
def rule2RecordT (sid : JsValue) (key : String) (i : Nat) (c : JsValue) : SentenceRecord :=
  ⟨jsToString sid ++ "-" ++ key ++ "-" ++ toString i,
    jsGetOrT c ["ja", "japanese", "text"],
    jsGetOrT c ["en", "english"]⟩

/-- Index-carrying total map (the total counterpart of `mapIdxExcept`). -/
def mapIdxFrom (f : Nat → JsValue → SentenceRecord) : Nat → List JsValue → List SentenceRecord
  | _, [] => []
  | i, c :: cs => f i c :: mapIdxFrom f (i + 1) cs

/-- The rule-3 fallback record synthesized for a subject (`App.js`
line 41), as a total function of the subject. -/
def fallbackRecordOf (s : JsValue) : SentenceRecord :=
  ⟨jsToString (fieldOf s "id") ++ "-fallback-0", fieldOf (subjData s) "characters",
    fallbackEnglish (subjData s)⟩

mutual

/-- Every array occurring anywhere inside the value has only non-nullish
elements (the shape under which the extractor's element dereferences are
all safe). -/
def arraysOkVal : JsValue → Bool
  | .null => true
  | .undefined => true
  | .bool _ => true
  | .num _ => true
  | .str _ => true
  | .arr xs => arraysOkElems xs
  | .obj fs => arraysOkFields fs

/-- Elements of an array: each non-nullish and recursively array-safe. -/
def arraysOkElems : List JsValue → Bool
  | [] => true
  | x :: xs => notNullish x && arraysOkVal x && arraysOkElems xs

/-- Field values: each recursively array-safe. -/
def arraysOkFields : List (String × JsValue) → Bool
  | [] => true
  | (_, v) :: fs => arraysOkVal v && arraysOkFields fs

end

theorem jsGetOr_notNullish (s : JsValue) (h : notNullish s = true) :
    ∀ keys : List String, jsGetOr s keys = .ok (jsGetOrT s keys) := by
  intro keys
  induction keys with
  | nil => rfl
  | cons k ks ih =>
    rw [jsGetOr, getField_notNullish s k h, except_bind_ok, jsGetOrT]
    by_cases ht : truthy (fieldOf s k) = true
    · rw [if_pos ht, if_pos ht]
    · rw [if_neg ht, if_neg ht, ih]

theorem ctxRecord_notNullish (sid : JsValue) (i : Nat) (c : JsValue)
    (h : notNullish c = true) : ctxRecord sid i c = .ok (ctxRecordT sid i c) := by
  rw [ctxRecord, jsGetOr_notNullish c h, except_bind_ok, jsGetOr_notNullish c h,
    except_bind_ok]
  rfl

theorem rule2Record_notNullish (sid : JsValue) (key : String) (i : Nat) (c : JsValue)
    (h : notNullish c = true) : rule2Record sid key i c = .ok (rule2RecordT sid key i c) := by
  rw [rule2Record, jsGetOr_notNullish c h, except_bind_ok, jsGetOr_notNullish c h,
    except_bind_ok]
  rfl

theorem mapIdxExcept_ctx (sid : JsValue) : ∀ (cs : List JsValue) (i : Nat),
    (∀ c ∈ cs, notNullish c = true) →
    mapIdxExcept (ctxRecord sid) i cs = .ok (mapIdxFrom (ctxRecordT sid) i cs)
  | [], i, _ => rfl
  | c :: cs, i, h => by
    rw [mapIdxExcept, ctxRecord_notNullish sid i c (h c (List.mem_cons_self c cs)),
      except_bind_ok,
      mapIdxExcept_ctx sid cs (i + 1) (fun x hx => h x (List.mem_cons_of_mem c hx)),
      except_bind_ok, mapIdxFrom]

theorem mapIdxExcept_rule2 (sid : JsValue) (key : String) : ∀ (cs : List JsValue) (i : Nat),
    (∀ c ∈ cs, notNullish c = true) →
    mapIdxExcept (rule2Record sid key) i cs = .ok (mapIdxFrom (rule2RecordT sid key) i cs)
  | [], i, _ => rfl
  | c :: cs, i, h => by
    rw [mapIdxExcept, rule2Record_notNullish sid key i c (h c (List.mem_cons_self c cs)),
      except_bind_ok,
      mapIdxExcept_rule2 sid key cs (i + 1) (fun x hx => h x (List.mem_cons_of_mem c hx)),
      except_bind_ok, mapIdxFrom]

theorem ctxRecord_ok_id (sid : JsValue) (i : Nat) (c : JsValue) (r : SentenceRecord)
    (h : ctxRecord sid i c = .ok r) : r.id = jsToString sid ++ "-ctx-" ++ toString i := by
  rw [ctxRecord] at h
  cases h1 : jsGetOr c ["ja", "japanese", "jp", "ja_text", "text"] with
  | error e => rw [h1, except_bind_err] at h; cases h
  | ok ja =>
    rw [h1, except_bind_ok] at h
    cases h2 : jsGetOr c ["en", "english", "en_text"] with
    | error e => rw [h2, except_bind_err] at h; cases h
    | ok en =>
      rw [h2, except_bind_ok] at h
      cases h
      rfl

theorem arraysOkFields_lookup : ∀ (fs : List (String × JsValue)) (k : String) (v : JsValue),
    arraysOkFields fs = true → fs.lookup k = some v → arraysOkVal v = true
  | [], _, _, _, hl => by cases hl
  | (k', v') :: fs, k, v, h, hl => by
    rw [arraysOkFields, Bool.and_eq_true] at h
    rw [List.lookup] at hl
    cases hbe : k == k' with
    | true =>
      rw [hbe] at hl
      cases hl
      exact h.1
    | false =>
      rw [hbe] at hl
      exact arraysOkFields_lookup fs k v h.2 hl

theorem arraysOk_fieldOf (s : JsValue) (k : String) (h : arraysOkVal s = true) :
    arraysOkVal (fieldOf s k) = true := by
  cases s with
  | obj fs =>
    rw [fieldOf]
    cases hl : fs.lookup k with
    | none => rfl
    | some v =>
      rw [Option.getD_some]
      exact arraysOkFields_lookup fs k v (by simpa [arraysOkVal] using h) hl
  | null => rfl
  | undefined => rfl
  | bool b => rfl
  | num n => rfl
  | str st => rfl
  | arr xs => rfl

theorem arraysOkElems_mem : ∀ (xs : List JsValue) (c : JsValue),
    arraysOkElems xs = true → c ∈ xs → notNullish c = true ∧ arraysOkVal c = true
  | [], _, _, hc => by cases hc
  | x :: xs, c, h, hc => by
    rw [arraysOkElems, Bool.and_eq_true, Bool.and_eq_true] at h
    rcases List.mem_cons.mp hc with rfl | hc
    · exact ⟨h.1.1, h.1.2⟩
    · exact arraysOkElems_mem xs c h.2 hc

theorem arraysOk_asArray (v : JsValue) (hv : isArray v = true) (h : arraysOkVal v = true) :
    ∀ c ∈ asArray v, notNullish c = true ∧ arraysOkVal c = true := by
  cases v <;> simp [isArray] at hv
  case arr xs =>
    intro c hc
    exact arraysOkElems_mem xs c (by simpa [arraysOkVal] using h) hc

theorem mem_idxEntries : ∀ (xs : List JsValue) (i : Nat) (p : String × JsValue),
    p ∈ idxEntries i xs → p.2 ∈ xs
  | [], _, _, hp => by cases hp
  | x :: xs, i, p, hp => by
    rw [idxEntries] at hp
    rcases List.mem_cons.mp hp with rfl | hp
    · exact List.mem_cons_self x xs
    · exact List.mem_cons_of_mem x (mem_idxEntries xs (i + 1) p hp)

theorem mem_idxCharEntries : ∀ (cs : List Char) (i : Nat) (p : String × JsValue),
    p ∈ idxCharEntries i cs → ∃ c : Char, p.2 = .str (String.singleton c)
  | [], _, _, hp => by cases hp
  | c :: cs, i, p, hp => by
    rw [idxCharEntries] at hp
    rcases List.mem_cons.mp hp with rfl | hp
    · exact ⟨c, rfl⟩
    · exact mem_idxCharEntries cs (i + 1) p hp

theorem arraysOk_ownEntries (v : JsValue) (h : arraysOkVal v = true) :
    ∀ p ∈ ownEntries v, arraysOkVal p.2 = true := by
  cases v with
  | obj fs =>
    rw [arraysOkVal] at h
    rw [ownEntries]
    intro p hp
    induction fs with
    | nil => cases hp
    | cons f fs ih =>
      rw [show arraysOkFields (f :: fs) = (arraysOkVal f.2 && arraysOkFields fs) from by
        obtain ⟨a, b⟩ := f; rfl, Bool.and_eq_true] at h
      rcases List.mem_cons.mp hp with rfl | hp
      · exact h.1
      · exact ih h.2 hp
  | arr xs =>
    rw [arraysOkVal] at h
    rw [ownEntries]
    intro p hp
    exact (arraysOkElems_mem xs p.2 h (mem_idxEntries xs 0 p hp)).2
  | str st =>
    rw [ownEntries]
    intro p hp
    obtain ⟨c, hc⟩ := mem_idxCharEntries st.toList 0 p hp
    rw [hc]
    rfl
  | null => intro p hp; cases hp
  | undefined => intro p hp; cases hp
  | bool b => intro p hp; cases hp
  | num n => intro p hp; cases hp

theorem scanKeys_elems : ∀ (entries : List (String × JsValue)) (k : String)
    (elems : List JsValue), scanKeys entries = some (k, elems) →
    ∃ v, (k, v) ∈ entries ∧ isArray v = true ∧ elems = asArray v
  | [], _, _, h => by cases h
  | (k', val) :: rest, k, elems, h => by
    rw [scanKeys] at h
    by_cases hc : isArray val ∧ asArray val ≠ [] ∧
        typeofObject ((asArray val).headD .undefined) = true ∧ (asArray val).any sentenceLike = true
    · rw [if_pos hc] at h
      cases h
      exact ⟨val, List.mem_cons_self _ _, hc.1, rfl⟩
    · rw [if_neg hc] at h
      obtain ⟨v, hv, hva, he⟩ := scanKeys_elems rest k elems h
      exact ⟨v, List.mem_cons_of_mem _ hv, hva, he⟩

theorem ctx_ne_fallback (x : String) (i : Nat) :
    x ++ "-ctx-" ++ toString i ≠ x ++ "-fallback-0" := by
  intro h
  rw [String.append_assoc] at h
  have h2 : ("-ctx-" ++ toString i : String).data = ("-fallback-0" : String).data := by
    have h3 := congrArg String.data h
    rw [String.data_append, String.data_append] at h3
    exact List.append_cancel_left h3
  rw [String.data_append] at h2
  rw [show ("-ctx-" : String).data = ['-', 'c', 't', 'x', '-'] from rfl] at h2
  rw [show ("-fallback-0" : String).data =
    ['-', 'f', 'a', 'l', 'l', 'b', 'a', 'c', 'k', '-', '0'] from rfl] at h2
  simp at h2

/-- C2: the level-range parser maps `"4,5-7,9-12,15"` to
`[4,5,6,7,9,10,11,12,15]`; for every input the result is duplicate-free and
ascending; and `""`, `"abc"` and `"3,abc,5"` parse to `[]`, `[]` and
`[3,5]`. -/
theorem c2_parse_levels :
    parseLevels "4,5-7,9-12,15" = [4, 5, 6, 7, 9, 10, 11, 12, 15] ∧
    (∀ s : String, (parseLevels s).Sorted (· < ·) ∧ (parseLevels s).Nodup) ∧
    parseLevels "" = [] ∧ parseLevels "abc" = [] ∧ parseLevels "3,abc,5" = [3, 5] :=
  ⟨by decide, fun s => ⟨parseLevels_sorted s, parseLevels_nodup s⟩, by decide, by decide,
    by decide⟩

/-- C7: the export serializer is a pure function of the level map, the
level string and the mode — two invocations on equal state produce an
identical filename and a byte-identical payload, in all four modes. -/
theorem c7_export_idempotent (g₁ g₂ : List (String × List SubjectGroup)) (l₁ l₂ : String)
    (m : ExportMode) (hg : g₁ = g₂) (hl : l₁ = l₂) :
    serializeExport g₁ l₁ m = serializeExport g₂ l₂ m := by
  subst hg
  subst hl
  rfl

/-- Witness for C7 at a concrete one-group map in `json-full` mode. -/
theorem c7_export_idempotent_witness :
    serializeExport
        [("Level 1", [⟨.num 1, .str "cat", .str "neko", [⟨"1-ctx-0", .str "J", .str "E"⟩]⟩])]
        "1" .jsonFull =
      serializeExport
        [("Level 1", [⟨.num 1, .str "cat", .str "neko", [⟨"1-ctx-0", .str "J", .str "E"⟩]⟩])]
        "1" .jsonFull :=
  c7_export_idempotent _ _ _ _ .jsonFull rfl rfl

/-- C8: every group in a successfully collected level result has a
non-empty sentence list — subjects whose extraction yields no sentences
contribute no group at all. -/
theorem c8_no_empty_groups : ∀ (subjects : List JsValue) (gs : List SubjectGroup),
    collectGroups subjects = .ok gs → ∀ g ∈ gs, g.sentences ≠ []
  | [], gs, h => by
    rw [collectGroups] at h
    cases h
    simp
  | s :: rest, gs, h => by
    rw [collectGroups] at h
    cases hx : extractSentencesFromSubject s with
    | error e => rw [hx, except_bind_err] at h; cases h
    | ok sentences =>
      rw [hx, except_bind_ok] at h
      by_cases hne : sentences ≠ []
      · rw [if_pos hne] at h
        cases hid : getField s "id" with
        | error e => rw [hid, except_bind_err] at h; cases h
        | ok sid =>
          rw [hid, except_bind_ok] at h
          cases hslug : dataAnd s "slug" with
          | error e => rw [hslug, except_bind_err] at h; cases h
          | ok slug =>
            rw [hslug, except_bind_ok] at h
            cases hch : dataAnd s "characters" with
            | error e => rw [hch, except_bind_err] at h; cases h
            | ok chars =>
              rw [hch, except_bind_ok] at h
              cases htail : collectGroups rest with
              | error e => rw [htail, except_bind_err] at h; cases h
              | ok tail =>
                rw [htail, except_bind_ok] at h
                cases h
                intro g hg
                rcases List.mem_cons.mp hg with rfl | hg
                · exact hne
                · exact c8_no_empty_groups rest tail htail g hg
      · rw [if_neg hne] at h
        exact c8_no_empty_groups rest gs h

/-- C4: for a subject whose nested data holds a non-empty
`context_sentences` array and also a `characters` field, extraction is
exactly the rule-1 mapping of the `context_sentences` entries, and is never
the single synthesized fallback record built from `characters`. -/
theorem c4_ctx_priority (s : JsValue) (hs : notNullish s = true)
    (harr : isArray (fieldOf (subjData s) "context_sentences") = true)
    (hne : asArray (fieldOf (subjData s) "context_sentences") ≠ [])
    (_hch : fieldOf (subjData s) "characters" ≠ .undefined) :
    extractSentencesFromSubject s =
      mapIdxExcept (ctxRecord (fieldOf s "id")) 0
        (asArray (fieldOf (subjData s) "context_sentences")) ∧
    extractSentencesFromSubject s ≠ .ok [fallbackRecordOf s] := by
  have hmain : extractSentencesFromSubject s =
      mapIdxExcept (ctxRecord (fieldOf s "id")) 0
        (asArray (fieldOf (subjData s) "context_sentences")) := by
    rw [extractSentencesFromSubject, getField_notNullish s "data" hs, except_bind_ok]
    rw [show jsOr (fieldOf s "data") (.obj []) = subjData s from rfl]
    rw [if_pos ⟨harr, hne⟩]
  refine ⟨hmain, ?_⟩
  rw [hmain]
  obtain ⟨c, cs, hcs⟩ := List.exists_cons_of_ne_nil hne
  rw [hcs, mapIdxExcept]
  cases h1 : ctxRecord (fieldOf s "id") 0 c with
  | error e =>
    rw [except_bind_err]
    intro hcon
    cases hcon
  | ok r =>
    rw [except_bind_ok]
    cases h2 : mapIdxExcept (ctxRecord (fieldOf s "id")) 1 cs with
    | error e =>
      rw [except_bind_err]
      intro hcon
      cases hcon
    | ok rs =>
      rw [except_bind_ok]
      intro hcon
      have h3 : r :: rs = [fallbackRecordOf s] := by
        cases hcon
        rfl
      have h4 : r = fallbackRecordOf s := (List.cons_eq_cons.mp h3).1
      have hid := ctxRecord_ok_id _ _ _ _ h1
      rw [h4] at hid
      exact ctx_ne_fallback (jsToString (fieldOf s "id")) 0 hid.symm

/-- Witness for C4 at a concrete subject holding both a `context_sentences`
array and a `characters` field. -/
theorem c4_ctx_priority_witness :
    extractSentencesFromSubject
        (.obj [("id", .num 1), ("data", .obj [("characters", .str "neko"),
          ("context_sentences", .arr [.obj [("ja", .str "J"), ("en", .str "E")]])])]) =
      mapIdxExcept (ctxRecord (fieldOf
        (.obj [("id", .num 1), ("data", .obj [("characters", .str "neko"),
          ("context_sentences", .arr [.obj [("ja", .str "J"), ("en", .str "E")]])])]) "id")) 0
        (asArray (fieldOf (subjData
          (.obj [("id", .num 1), ("data", .obj [("characters", .str "neko"),
            ("context_sentences", .arr [.obj [("ja", .str "J"), ("en", .str "E")]])])]))
          "context_sentences")) ∧
    extractSentencesFromSubject
        (.obj [("id", .num 1), ("data", .obj [("characters", .str "neko"),
          ("context_sentences", .arr [.obj [("ja", .str "J"), ("en", .str "E")]])])]) ≠
      .ok [fallbackRecordOf
        (.obj [("id", .num 1), ("data", .obj [("characters", .str "neko"),
          ("context_sentences", .arr [.obj [("ja", .str "J"), ("en", .str "E")]])])])] :=
  c4_ctx_priority _ (by decide) (by decide) (by decide) (by decide)

/-- C9 counterexample: a subject whose data has no sentence-like array and
whose `characters` field is present but `null` (as for real radical
subjects).  The claim promises exactly one synthesized record; the code's
truthiness test on `data.characters` skips the fallback and returns zero
records. -/
theorem c9_counterexample :
    extractSentencesFromSubject
        (.obj [("id", .num 7), ("data", .obj [("characters", JsValue.null)])]) = .ok [] ∧
    fieldOf (subjData (.obj [("id", .num 7), ("data", .obj [("characters", JsValue.null)])]))
        "characters" = JsValue.null ∧
    isArray (fieldOf (subjData
        (.obj [("id", .num 7), ("data", .obj [("characters", JsValue.null)])]))
      "context_sentences") = false ∧
    scanKeys (ownEntries (subjData
        (.obj [("id", .num 7), ("data", .obj [("characters", JsValue.null)])]))) = none ∧
    (Except.ok ([] : List SentenceRecord) : Except String (List SentenceRecord)) ≠
      .ok [fallbackRecordOf
        (.obj [("id", .num 7), ("data", .obj [("characters", JsValue.null)])])] := by
  refine ⟨by decide, by decide, by decide, by decide, by decide⟩

/-- C9 (amended): when neither array rule matches and `data.characters` is
truthy, extraction returns exactly the one fallback record, whose Japanese
text is the `characters` value and whose English text is
`data.meanings[0].meaning` when that guarded chain is truthy, else the
empty string. -/
theorem c9_fallback (s : JsValue) (hs : notNullish s = true)
    (hno1 : ¬(isArray (fieldOf (subjData s) "context_sentences") = true ∧
      asArray (fieldOf (subjData s) "context_sentences") ≠ []))
    (hno2 : scanKeys (ownEntries (subjData s)) = none)
    (hch : truthy (fieldOf (subjData s) "characters") = true) :
    extractSentencesFromSubject s = .ok [fallbackRecordOf s] := by
  rw [extractSentencesFromSubject, getField_notNullish s "data" hs, except_bind_ok]
  rw [show jsOr (fieldOf s "data") (.obj []) = subjData s from rfl]
  rw [if_neg hno1, hno2]
  show (if truthy (fieldOf (subjData s) "characters") = true then
      Except.ok [⟨jsToString (fieldOf s "id") ++ "-fallback-0",
        fieldOf (subjData s) "characters", fallbackEnglish (subjData s)⟩]
    else Except.ok []) = Except.ok [fallbackRecordOf s]
  rw [if_pos hch]
  rfl

/-- Witness for C9 (amended) at a concrete fallback-only subject. -/
theorem c9_fallback_witness :
    extractSentencesFromSubject
        (.obj [("id", .num 7), ("data", .obj [("characters", .str "neko"),
          ("meanings", .arr [.obj [("meaning", .str "cat")]])])]) =
      .ok [fallbackRecordOf (.obj [("id", .num 7), ("data", .obj [("characters", .str "neko"),
          ("meanings", .arr [.obj [("meaning", .str "cat")]])])])] :=
  c9_fallback _ (by decide) (by decide) (by decide) (by decide)

/-- C5 counterexample: extraction is not total — a `context_sentences`
array containing a `null` element makes the unguarded `s.ja` read at
`App.js` line 29 throw a TypeError instead of returning a sequence. -/
theorem c5_counterexample :
    extractSentencesFromSubject
        (.obj [("id", .num 1), ("data", .obj [("context_sentences", .arr [JsValue.null])])]) =
      .error "TypeError: Cannot read properties of null (reading ja)" := by
  decide

/-- C5 (amended): extraction terminates with a (possibly empty) sequence
for every non-nullish subject all of whose embedded arrays contain only
non-nullish elements; only a nullish subject or a nullish element inside a
sentence-candidate array can make it throw. -/
theorem c5_extractor_total (s : JsValue) (hs : notNullish s = true)
    (ha : arraysOkVal s = true) : (extractSentencesFromSubject s).isOk = true := by
  rw [extractSentencesFromSubject, getField_notNullish s "data" hs, except_bind_ok]
  rw [show jsOr (fieldOf s "data") (.obj []) = subjData s from rfl]
  have hdata : arraysOkVal (subjData s) = true := by
    rw [subjData, jsOr]
    by_cases h : truthy (fieldOf s "data") = true
    · rw [if_pos h]
      exact arraysOk_fieldOf s "data" ha
    · rw [if_neg h]
      rfl
  by_cases h1 : isArray (fieldOf (subjData s) "context_sentences") = true ∧
      asArray (fieldOf (subjData s) "context_sentences") ≠ []
  · rw [if_pos h1]
    have helems : ∀ c ∈ asArray (fieldOf (subjData s) "context_sentences"),
        notNullish c = true := fun c hc =>
      (arraysOk_asArray _ h1.1 (arraysOk_fieldOf _ _ hdata) c hc).1
    rw [mapIdxExcept_ctx _ _ 0 helems]
    rfl
  · rw [if_neg h1]
    cases hscan : scanKeys (ownEntries (subjData s)) with
    | some p =>
      obtain ⟨k, elems⟩ := p
      obtain ⟨v, hv, hva, he⟩ := scanKeys_elems _ k elems hscan
      have hok : arraysOkVal v = true := arraysOk_ownEntries _ hdata (k, v) hv
      have helems : ∀ c ∈ elems, notNullish c = true := fun c hc =>
        (arraysOk_asArray v hva hok c (he ▸ hc)).1
      show (mapIdxExcept (rule2Record (fieldOf s "id") k) 0 elems).isOk = true
      rw [mapIdxExcept_rule2 _ _ _ 0 helems]
      rfl
    | none =>
      show (if truthy (fieldOf (subjData s) "characters") = true then
          (Except.ok [(⟨jsToString (fieldOf s "id") ++ "-fallback-0",
            fieldOf (subjData s) "characters", fallbackEnglish (subjData s)⟩ : SentenceRecord)] :
              Except String (List SentenceRecord))
        else Except.ok []).isOk = true
      by_cases hch : truthy (fieldOf (subjData s) "characters") = true
      · rw [if_pos hch]
        rfl
      · rw [if_neg hch]
        rfl

/-- Witness for C5 (amended) at a concrete subject with a rule-2 array. -/
theorem c5_extractor_total_witness :
    (extractSentencesFromSubject
        (.obj [("id", .num 2), ("data", .obj [("foo",
          .arr [.obj [("ja", .str "x")], .obj [("other", .num 5)]])])])).isOk = true :=
  c5_extractor_total _ (by decide) (by decide)

/-- C10 counterexample: rule 2 fires on the array under `foo` (its first
element is an object and one element has a `ja` field), but the `null`
element is not mapped to an empty-text record — the unguarded `s.ja` read at
`App.js` line 36 throws instead. -/
theorem c10_counterexample :
    scanKeys (ownEntries (subjData (.obj [("id", .num 2), ("data", .obj [("foo",
        .arr [.obj [("ja", .str "x")], JsValue.null])])]))) =
      some ("foo", [.obj [("ja", .str "x")], JsValue.null]) ∧
    extractSentencesFromSubject (.obj [("id", .num 2), ("data", .obj [("foo",
        .arr [.obj [("ja", .str "x")], JsValue.null])])]) =
      .error "TypeError: Cannot read properties of null (reading ja)" :=
  ⟨by decide, by decide⟩

/-- C10 (amended): when rule 1 does not fire and the rule-2 scan selects
key `k` with elements `elems`, every non-nullish element — including
elements with none of the recognized text fields — is mapped to exactly one
record, in array order; an element with no recognized truthy text field
yields a record with both texts empty (so all-empty records can appear).
Nullish elements instead make the extractor throw. -/
theorem c10_rule2_maps_all (s : JsValue) (k : String) (elems : List JsValue)
    (hs : notNullish s = true)
    (hno1 : ¬(isArray (fieldOf (subjData s) "context_sentences") = true ∧
      asArray (fieldOf (subjData s) "context_sentences") ≠ []))
    (hscan : scanKeys (ownEntries (subjData s)) = some (k, elems))
    (hel : ∀ c ∈ elems, notNullish c = true) :
    extractSentencesFromSubject s =
      .ok (mapIdxFrom (rule2RecordT (fieldOf s "id") k) 0 elems) ∧
    (∀ (i : Nat) (c : JsValue),
      truthy (fieldOf c "ja") = false → truthy (fieldOf c "japanese") = false →
      truthy (fieldOf c "text") = false → truthy (fieldOf c "en") = false →
      truthy (fieldOf c "english") = false →
      rule2RecordT (fieldOf s "id") k i c =
        ⟨jsToString (fieldOf s "id") ++ "-" ++ k ++ "-" ++ toString i, .str "", .str ""⟩) := by
  constructor
  · rw [extractSentencesFromSubject, getField_notNullish s "data" hs, except_bind_ok]
    rw [show jsOr (fieldOf s "data") (.obj []) = subjData s from rfl]
    rw [if_neg hno1, hscan]
    show mapIdxExcept (rule2Record (fieldOf s "id") k) 0 elems =
      .ok (mapIdxFrom (rule2RecordT (fieldOf s "id") k) 0 elems)
    exact mapIdxExcept_rule2 _ _ _ 0 hel
  · intro i c h1 h2 h3 h4 h5
    rw [rule2RecordT]
    rw [show jsGetOrT c ["ja", "japanese", "text"] =
        (if truthy (fieldOf c "ja") = true then fieldOf c "ja" else
          if truthy (fieldOf c "japanese") = true then fieldOf c "japanese" else
            if truthy (fieldOf c "text") = true then fieldOf c "text" else .str "") from rfl]
    rw [show jsGetOrT c ["en", "english"] =
        (if truthy (fieldOf c "en") = true then fieldOf c "en" else
          if truthy (fieldOf c "english") = true then fieldOf c "english" else .str "") from rfl]
    rw [if_neg (by rw [h1]; exact Bool.false_ne_true),
      if_neg (by rw [h2]; exact Bool.false_ne_true),
      if_neg (by rw [h3]; exact Bool.false_ne_true),
      if_neg (by rw [h4]; exact Bool.false_ne_true),
      if_neg (by rw [h5]; exact Bool.false_ne_true)]

/-- Witness for C10 (amended): a rule-2 array whose second element has no
recognized text field, yielding an all-empty second record. -/
theorem c10_rule2_maps_all_witness :
    extractSentencesFromSubject
        (.obj [("id", .num 2), ("data", .obj [("foo",
          .arr [.obj [("ja", .str "x")], .obj [("other", .num 5)]])])]) =
      .ok (mapIdxFrom (rule2RecordT (fieldOf
        (.obj [("id", .num 2), ("data", .obj [("foo",
          .arr [.obj [("ja", .str "x")], .obj [("other", .num 5)]])])]) "id") "foo") 0
        [.obj [("ja", .str "x")], .obj [("other", .num 5)]]) ∧
    (∀ (i : Nat) (c : JsValue),
      truthy (fieldOf c "ja") = false → truthy (fieldOf c "japanese") = false →
      truthy (fieldOf c "text") = false → truthy (fieldOf c "en") = false →
      truthy (fieldOf c "english") = false →
      rule2RecordT (fieldOf
        (.obj [("id", .num 2), ("data", .obj [("foo",
          .arr [.obj [("ja", .str "x")], .obj [("other", .num 5)]])])]) "id") "foo" i c =
        ⟨jsToString (fieldOf
          (.obj [("id", .num 2), ("data", .obj [("foo",
            .arr [.obj [("ja", .str "x")], .obj [("other", .num 5)]])])]) "id") ++ "-" ++
          "foo" ++ "-" ++ toString i, .str "", .str ""⟩) :=
  c10_rule2_maps_all _ "foo" [.obj [("ja", .str "x")], .obj [("other", .num 5)]]
    (by decide) (by decide) (by decide) (by decide)

/-- C6 counterexample: a fetched subject with no `slug` key produces a
group whose `slug` field is `undefined`; `JSON.stringify` drops that entry,
so parsing the `json-full` payload back yields an object that is not equal
to the in-memory level map. -/
theorem c6_counterexample :
    collectGroups [.obj [("id", .num 1), ("data", .obj [("characters", .str "neko")])]] =
      .ok [⟨.num 1, .undefined, .str "neko", [⟨"1-fallback-0", .str "neko", .str ""⟩]⟩] ∧
    jsonRoundTrip (groupsToJs [("Level 1",
        [⟨.num 1, .undefined, .str "neko", [⟨"1-fallback-0", .str "neko", .str ""⟩]⟩])]) ≠
      some (groupsToJs [("Level 1",
        [⟨.num 1, .undefined, .str "neko", [⟨"1-fallback-0", .str "neko", .str ""⟩]⟩])]) :=
  ⟨by decide, by decide⟩

/-- C6 (amended): the `json-full` export of a fetched level map parses back
to a structure equal to the in-memory map whenever that map is JSON-clean
(contains no `undefined`-valued fields — as when every retained subject
defines `id`, `slug` and `characters`). -/
theorem c6_json_roundtrip (level : String) (subjects : List JsValue) (gs : List SubjectGroup)
    (_hgs : collectGroups subjects = .ok gs)
    (hclean : jsonCleanVal (groupsToJs [("Level " ++ level, gs)]) = true) :
    jsonRoundTrip (groupsToJs [("Level " ++ level, gs)]) =
      some (groupsToJs [("Level " ++ level, gs)]) := by
  rw [show jsonRoundTrip (groupsToJs [("Level " ++ level, gs)]) =
    some (jsonRTval (groupsToJs [("Level " ++ level, gs)])) from rfl]
  rw [jsonRTval_clean _ hclean]

/-- Witness for C6 (amended) at a concrete one-subject fetch whose subject
defines `id`, `slug` and `characters`. -/
theorem c6_json_roundtrip_witness :
    jsonRoundTrip (groupsToJs [("Level 1", [⟨.num 1, .str "cat", .str "neko",
        [⟨"1-fallback-0", .str "neko", .str ""⟩]⟩])]) =
      some (groupsToJs [("Level 1", [⟨.num 1, .str "cat", .str "neko",
        [⟨"1-fallback-0", .str "neko", .str ""⟩]⟩])]) :=
  c6_json_roundtrip "1"
    [.obj [("id", .num 1), ("data", .obj [("slug", .str "cat"), ("characters", .str "neko")])]]
    _ (by decide) (by decide)

/-- The premise of the pagination claims: starting at `url`, the network
serves a finite chain of successful pages with the listed bodies, each page
naming the next page's URL in `pages.next_url` and the last page carrying
no (truthy) cursor. -/
inductive PageChain (world : String → Option PageResponse) : String → List JsValue → Prop where
  | last (url : String) (r : PageResponse) :
      world url = some r → r.ok = true → notNullish r.body = true →
      nextUrl? r.body = none → PageChain world url [r.body]
  | step (url url' : String) (r : PageResponse) (rest : List JsValue) :
      world url = some r → r.ok = true → notNullish r.body = true →
      nextUrl? r.body = some url' → PageChain world url' rest →
      PageChain world url (r.body :: rest)

/-- The premise of the HTTP-failure claim: following cursors from `url`,
the `k`-th page responds with a non-success status `status`/`statusText`
(all pages before it succeed). -/
inductive FailAt (world : String → Option PageResponse) (status : Nat) (statusText : String) :
    Nat → String → Prop where
  | here (url : String) (r : PageResponse) :
      world url = some r → r.ok = false → r.status = status → r.statusText = statusText →
      FailAt world status statusText 0 url
  | step (k : Nat) (url url' : String) (r : PageResponse) :
      world url = some r → r.ok = true → notNullish r.body = true →
      nextUrl? r.body = some url' → FailAt world status statusText k url' →
      FailAt world status statusText (k + 1) url

theorem pageData_notNullish (b : JsValue) (h : notNullish b = true) :
    pageData b = .ok (dataArr b) := by
  rw [pageData, getField_notNullish b "data" h, except_bind_ok, dataArr]
  by_cases hc : (truthy (fieldOf b "data") && isArray (fieldOf b "data")) = true
  · rw [if_pos hc, if_pos hc]
  · rw [if_neg hc, if_neg hc]

theorem nextCursor_notNullish (b : JsValue) (h : notNullish b = true) :
    nextCursor b = .ok (nextUrl? b) := by
  rw [nextCursor, getField_notNullish b "pages" h, except_bind_ok, nextUrl?]
  by_cases hp : truthy (fieldOf b "pages") = true
  · rw [if_pos hp, if_pos hp]
    by_cases hn : truthy (fieldOf (fieldOf b "pages") "next_url") = true
    · rw [if_pos hn, if_pos hn]
    · rw [if_neg hn, if_neg hn]
  · rw [if_neg hp, if_neg hp]

theorem fetchPagesLoop_step (world : String → Option PageResponse) (fuel : Nat)
    (url : String) (acc : List JsValue) (r : PageResponse) (hw : world url = some r)
    (hok : r.ok = true) (hnn : notNullish r.body = true) :
    fetchPagesLoop world (fuel + 1) url acc =
      (match nextUrl? r.body with
       | some nurl => fetchPagesLoop world fuel nurl (acc ++ dataArr r.body)
       | none => .ok (acc ++ dataArr r.body)) := by
  simp only [fetchPagesLoop, hw, hok, Bool.not_true, Bool.false_eq_true, if_false,
    pageData_notNullish r.body hnn, nextCursor_notNullish r.body hnn, except_bind_ok]

theorem fetchPagesLoop_chain (world : String → Option PageResponse)
    (bs : List JsValue) (url : String) (h : PageChain world url bs) :
    ∀ (fuel : Nat) (acc : List JsValue), bs.length ≤ fuel →
      fetchPagesLoop world fuel url acc = .ok (acc ++ (bs.map dataArr).flatten) := by
  induction h with
  | last url r hw hok hnn hnu =>
    intro fuel acc hfuel
    cases fuel with
    | zero => simp at hfuel
    | succ fuel =>
      rw [fetchPagesLoop_step world fuel url acc r hw hok hnn, hnu]
      simp
  | step url url' r rest hw hok hnn hnu hrest ih =>
    intro fuel acc hfuel
    cases fuel with
    | zero => simp at hfuel
    | succ fuel =>
      rw [fetchPagesLoop_step world fuel url acc r hw hok hnn, hnu]
      show fetchPagesLoop world fuel url' (acc ++ dataArr r.body) =
        .ok (acc ++ (List.map dataArr (r.body :: rest)).flatten)
      rw [ih fuel (acc ++ dataArr r.body) (by simpa using hfuel)]
      simp

/-- C1: for a finite chain of pages in which page `k`'s body names page
`k+1` in `pages.next_url` and the last page has no cursor, `fetchAllPages`
returns the concatenation of all pages' `data` arrays in page order (each
element exactly once); a page whose body holds no `data` array contributes
nothing (`dataArr` is empty there). -/
theorem c1_pagination (world : String → Option PageResponse) (url : String)
    (bs : List JsValue) (fuel : Nat) (h : PageChain world url bs)
    (hfuel : bs.length ≤ fuel) :
    fetchAllPages world fuel url = .ok (bs.map dataArr).flatten := by
  rw [fetchAllPages, fetchPagesLoop_chain world bs url h fuel [] hfuel]
  rfl

/-- The body of the pagination witness's first page. -/
def c1Body0 : JsValue :=
  .obj [("data", .arr [.num 1, .num 2]), ("pages", .obj [("next_url", .str "page1")])]

/-- The body of the pagination witness's second (last) page. -/
def c1Body1 : JsValue :=
  .obj [("data", .arr [.num 3]), ("pages", .obj [("next_url", JsValue.null)])]

/-- The network of the pagination witness: two successful pages, the first
pointing at the second, the second with no cursor. -/
def c1World : String → Option PageResponse := fun u =>
  if u = "page0" then some ⟨true, 200, "OK", c1Body0⟩
  else if u = "page1" then some ⟨true, 200, "OK", c1Body1⟩
  else none

/-- Witness for C1: the two-page chain concatenates to `[1, 2, 3]`. -/
theorem c1_pagination_witness :
    fetchAllPages c1World 2 "page0" =
      .ok (([c1Body0, c1Body1].map dataArr).flatten) :=
  c1_pagination c1World "page0" [c1Body0, c1Body1] 2
    (PageChain.step "page0" "page1" ⟨true, 200, "OK", c1Body0⟩ [c1Body1]
      (by decide) (by decide) (by decide) (by decide)
      (PageChain.last "page1" ⟨true, 200, "OK", c1Body1⟩
        (by decide) (by decide) (by decide) (by decide)))
    (by decide)

theorem fetchPagesLoop_fail (world : String → Option PageResponse) (st : Nat) (stx : String)
    (k : Nat) (url : String) (h : FailAt world st stx k url) :
    ∀ (fuel : Nat) (acc : List JsValue), k < fuel →
      fetchPagesLoop world fuel url acc = .error ("HTTP " ++ toString st ++ ": " ++ stx) := by
  induction h with
  | here url r hw hok hst htx =>
    intro fuel acc hfuel
    cases fuel with
    | zero => omega
    | succ fuel =>
      simp only [fetchPagesLoop, hw, hok, Bool.not_false, if_true, hst, htx]
  | step k url url' r hw hok hnn hnu hrest ih =>
    intro fuel acc hfuel
    cases fuel with
    | zero => omega
    | succ fuel =>
      rw [fetchPagesLoop_step world fuel url acc r hw hok hnn, hnu]
      exact ih fuel (acc ++ dataArr r.body) (by omega)

/-- C3: when some page of the chain answers with a non-success HTTP status,
`fetchAllPages` fails with exactly the `HTTP status: statusText` error (no
retry, no partial result), and `handleFetch` surfaces that message with an
empty `groups` state — no partial level data is exposed. -/
theorem c3_http_error_aborts (world : String → Option PageResponse) (fuel k : Nat)
    (token level : String) (st : Nat) (stx : String) (htoken : ¬token = "")
    (hfail : FailAt world st stx k (baseUrl level)) (hfuel : k < fuel) :
    fetchAllPages world fuel (baseUrl level) = .error ("HTTP " ++ toString st ++ ": " ++ stx) ∧
    handleFetch world fuel token level =
      ⟨[], some ("HTTP " ++ toString st ++ ": " ++ stx)⟩ := by
  have hmain : fetchAllPages world fuel (baseUrl level) =
      .error ("HTTP " ++ toString st ++ ": " ++ stx) := by
    rw [fetchAllPages]
    exact fetchPagesLoop_fail world st stx k (baseUrl level) hfail fuel [] hfuel
  refine ⟨hmain, ?_⟩
  rw [handleFetch, if_neg htoken, hmain]

/-- The network of the HTTP-failure witness: the level-1 subjects URL
answers 401. -/
def c3World : String → Option PageResponse := fun u =>
  if u = baseUrl "1" then some ⟨false, 401, "Unauthorized", JsValue.null⟩ else none

/-- Witness for C3: a 401 on the first page aborts the fetch and leaves the
caller with the error message and no groups. -/
theorem c3_http_error_aborts_witness :
    fetchAllPages c3World 1 (baseUrl "1") = .error ("HTTP " ++ toString 401 ++ ": " ++
      "Unauthorized") ∧
    handleFetch c3World 1 "token123" "1" =
      ⟨[], some ("HTTP " ++ toString 401 ++ ": " ++ "Unauthorized")⟩ :=
  c3_http_error_aborts c3World 1 0 "token123" "1" 401 "Unauthorized" (by decide)
    (FailAt.here (baseUrl "1") ⟨false, 401, "Unauthorized", JsValue.null⟩
      (by decide) (by decide) (by decide) (by decide)) (by decide)

/-- Witness for C8 at a concrete two-subject list (one subject yields a
fallback sentence, the other yields nothing and leaves no group). -/
theorem c8_no_empty_groups_witness :
    (⟨.num 1, .undefined, .str "neko",
      [⟨"1-fallback-0", .str "neko", .str ""⟩]⟩ : SubjectGroup).sentences ≠ [] :=
  c8_no_empty_groups
    [.obj [("id", .num 1), ("data", .obj [("characters", .str "neko")])],
     .obj [("id", .num 2), ("data", .obj [])]]
    [⟨.num 1, .undefined, .str "neko", [⟨"1-fallback-0", .str "neko", .str ""⟩]⟩]
    (by decide) _ (List.mem_singleton.mpr rfl)

end Wk
